import Mathlib

/-!
A verification development for the arxivqml keyword-canonicalization core.

The Python sources are embedded shallowly:

* Python strings are lists of Unicode code points (`PyStr`), with the
  ASCII behaviour of `str.lower`, `str.upper`, `str.strip`, `str.title`
  and `str.isupper` modelled explicitly.
* `normalize_keyword` / `capitalize_keyword` follow
  `src/arxivqml/database.py` lines 89-152.
* `normalize_paper_keywords` (database.py lines 154-191) is embedded as a
  pure fold over the list of stored papers; the MongoDB collection's
  in-place updates become the returned paper list.  `list(set(...))` is
  modelled by a deterministic first-occurrence deduplication.
* `load_keyword_mappings` / `save_keyword_mappings` (database.py lines
  193-295) run against an explicit model of the three files involved
  (primary, backup, temp file); JSON documents are the inductive `JVal`.
  Exceptions that the Python code lets escape are `Except.error`.
* `run_categories` embeds the category loop of
  `src/arxivqml/main.py` lines 25-58, with the search and curation
  collaborators abstracted as fallible functions.
-/

/-- Python strings, modelled as lists of Unicode code points. -/
abbrev PyStr := List Nat

/-- The code points of a Lean string literal; used to write down concrete
Python string constants from the source. -/
def pyStr (s : String) : PyStr := s.data.map Char.toNat

/-- Python `str.lower` on one code point (ASCII letters). -/
def lowerChar (c : Nat) : Nat := if 65 ≤ c ∧ c ≤ 90 then c + 32 else c

/-- Python `str.upper` on one code point (ASCII letters). -/
def upperChar (c : Nat) : Nat := if 97 ≤ c ∧ c ≤ 122 then c - 32 else c

/-- An ASCII lowercase letter. -/
def isLowerAlpha (c : Nat) : Bool := 97 ≤ c && c ≤ 122

/-- An ASCII uppercase letter. -/
def isUpperAlpha (c : Nat) : Bool := 65 ≤ c && c ≤ 90

/-- An ASCII letter (a cased character). -/
def isAlphaChar (c : Nat) : Bool := isUpperAlpha c || isLowerAlpha c

/-- The whitespace that Python `str.strip()` removes (ASCII range). -/
def isSpaceChar (c : Nat) : Bool :=
  c == 32 || c == 9 || c == 10 || c == 13 || c == 11 || c == 12

/-- Python `str.lower`. -/
def pyLower (s : PyStr) : PyStr := s.map lowerChar

/-- Python `str.upper`. -/
def pyUpper (s : PyStr) : PyStr := s.map upperChar

/-- Remove trailing whitespace (the right half of `str.strip`): a
character is kept unless it is whitespace with only whitespace after it. -/
def stripRight : PyStr → PyStr
  | [] => []
  | c :: t =>
    match stripRight t with
    | [] => if isSpaceChar c then [] else [c]
    | x :: xs => c :: x :: xs

/-- Python `str.strip()`: remove whitespace from both ends. -/
def pyStrip (s : PyStr) : PyStr := stripRight (s.dropWhile isSpaceChar)

/-- Python `str.isupper()`: at least one cased character, and no cased
character is lowercase. -/
def pyIsUpper (s : PyStr) : Bool := s.any isAlphaChar && !(s.any isLowerAlpha)

/-- Worker for `pyTitle`; the flag records whether the previous character
was a letter. -/
def titleAux : Bool → PyStr → PyStr
  | _, [] => []
  | prev, c :: t =>
    if isAlphaChar c then
      (if prev then lowerChar c else upperChar c) :: titleAux true t
    else c :: titleAux false t

/-- Python `str.title()`: first letter of each run of letters uppercased,
the remaining letters lowercased. -/
def pyTitle (s : PyStr) : PyStr := titleAux false s

/-- The `special_cases` table of `capitalize_keyword`
(database.py lines 125-139). -/
def special_cases : List (PyStr × PyStr) :=
  [ (pyStr "d-wave", pyStr "D-Wave"),
    (pyStr "pennylane", pyStr "PennyLane"),
    (pyStr "ibm quantum", pyStr "IBM Quantum"),
    (pyStr "xanadu", pyStr "Xanadu"),
    (pyStr "vqa", pyStr "VQA"),
    (pyStr "vqas", pyStr "VQAs"),
    (pyStr "qaoa", pyStr "QAOA"),
    (pyStr "qnn", pyStr "QNN"),
    (pyStr "svm", pyStr "SVM"),
    (pyStr "ml", pyStr "ML"),
    (pyStr "ai", pyStr "AI"),
    (pyStr "nn", pyStr "NN"),
    (pyStr "nns", pyStr "NNs") ]

/-- `capitalize_keyword` (database.py lines 110-152): special-case table
first, then the short-acronym rule, else title case. -/
def capitalize_keyword (keyword : PyStr) : PyStr :=
  let keyword_lower := pyStrip (pyLower keyword)
  match special_cases.lookup keyword_lower with
  | some v => v
  | none =>
    if keyword.length ≤ 4 && pyIsUpper keyword && !(keyword.contains 32) then
      pyUpper keyword
    else
      pyTitle keyword

/-- The `mappings` dictionary: canonical form, each with its list of
variants, in dict insertion order. -/
abbrev Mappings := List (PyStr × List PyStr)

/-- `normalize_keyword` (database.py lines 89-108): first canonical key
whose lowercased variants contain the lowercased stripped input, else
`capitalize_keyword` of the stripped input. -/
def normalize_keyword (keyword : PyStr) (mappings : Mappings) : PyStr :=
  let keyword_lower := pyStrip (pyLower keyword)
  match mappings.find? (fun p => (p.2.map pyLower).contains keyword_lower) with
  | some p => p.1
  | none => capitalize_keyword (pyStrip keyword)

/-- Worker for `pySetList`: keep the first occurrence of each string. -/
def pySetAux (seen : List PyStr) : List PyStr → List PyStr
  | [] => []
  | x :: xs => if x ∈ seen then pySetAux seen xs else x :: pySetAux (x :: seen) xs

/-- Deterministic model of Python `list(set(l))`: the distinct elements of
`l` (CPython leaves the order of `list(set(...))` unspecified; the claims
below never depend on the particular order chosen). -/
def pySetList (l : List PyStr) : List PyStr := pySetAux [] l

/-- The `keywords` field of a stored paper: absent, an unparsable value
(whose processing raises), or a list of keyword strings. -/
inductive KwField where
  | missing
  | bad
  | kws (l : List PyStr)
deriving DecidableEq

/-- A stored paper, reduced to the fields `normalize_paper_keywords`
touches: its `_id` and its `keywords` field. -/
structure Paper where
  pid : Nat
  kw : KwField
deriving DecidableEq

/-- The loop body of `normalize_paper_keywords` (database.py lines
169-189) for one paper: the paper as left in the store, the increment of
`updated_count` and the increment of `error_count`.  A paper without a
`keywords` field is skipped; an unparsable `keywords` value raises inside
the `try`, is caught, and only bumps `error_count`. -/
def normalizeStep (mappings : Mappings) (p : Paper) : Paper × Nat × Nat :=
  match p.kw with
  | .missing => (p, 0, 0)
  | .bad => (p, 0, 1)
  | .kws l =>
    let normalized := pySetList (l.map (fun kw => normalize_keyword kw mappings))
    if normalized = l then (p, 0, 0)
    else ({ p with kw := .kws normalized }, 1, 0)

/-- `normalize_paper_keywords` (database.py lines 154-191): walk every
paper; recompute and deduplicate the keywords of each paper that has a
`keywords` field, update the paper when the recomputed list differs from
the stored one, count errors per item and keep going.  Returns the updated
corpus together with `(updated_count, error_count)`. -/
def normalize_paper_keywords (mappings : Mappings) : List Paper → List Paper × Nat × Nat
  | [] => ([], 0, 0)
  | p :: rest =>
    let step := normalizeStep mappings p
    let restR := normalize_paper_keywords mappings rest
    (step.1 :: restR.1, step.2.1 + restR.2.1, step.2.2 + restR.2.2)

/-- A JSON document. -/
inductive JVal where
  | jdict (fields : List (PyStr × JVal))
  | jarr (elems : List JVal)
  | jstr (s : PyStr)
  | jnum (n : Int)
  | jbool (b : Bool)
  | jnull

/-- One file on disk, as `load_keyword_mappings` can encounter it: absent,
present but unreadable (`open`/`read` raises an `OSError`), present but
unparsable (`json.load` raises), or parsed JSON content. -/
inductive FileState where
  | absent
  | unreadable
  | corrupt
  | content (v : JVal)

/-- `default_data` of `load_keyword_mappings` (database.py line 205). -/
def default_data : JVal :=
  .jdict [ (pyStr "mappings", .jdict []),
           (pyStr "hierarchy", .jdict []),
           (pyStr "unmapped_keywords", .jarr []) ]

/-- Whether a JSON dictionary has the key `k`. -/
def hasKey (fields : List (PyStr × JVal)) (k : PyStr) : Bool :=
  fields.any (fun p => p.1 == k)

/-- Python `data[k] = d` when `k not in data`: appends the key in dict
insertion order, and leaves the dict alone when the key is present. -/
def setDefault (fields : List (PyStr × JVal)) (k : PyStr) (d : JVal) : List (PyStr × JVal) :=
  if hasKey fields k then fields else fields ++ [(k, d)]

/-- The backup branch of `load_keyword_mappings` (database.py lines
229-241): any failure to read or parse the backup falls back to
`default_data`; parsed backup content is returned as is, without the
structural validation the primary file gets. -/
def loadBackup : FileState → JVal
  | .content v => v
  | _ => default_data

/-- `load_keyword_mappings` (database.py lines 193-241) over the states of
the primary and backup files.  `Except.error` is an exception escaping to
the caller: the `except` clause catches only `json.JSONDecodeError` and
`ValueError`, so an `OSError` from an unreadable primary file propagates. -/
def load_keyword_mappings (primary backup : FileState) : Except Unit JVal :=
  match primary with
  | .absent => .ok default_data
  | .unreadable => .error ()
  | .corrupt => .ok (loadBackup backup)
  | .content v =>
    match v with
    | .jdict fields =>
      .ok (.jdict (setDefault (setDefault (setDefault fields
            (pyStr "mappings") (.jdict []))
            (pyStr "hierarchy") (.jdict []))
            (pyStr "unmapped_keywords") (.jarr [])))
    | _ => .ok (loadBackup backup)

/-- The files `save_keyword_mappings` touches: the primary file, its
`.bak` sibling and the temporary file. -/
structure FS where
  primary : FileState
  backup : FileState
  temp : FileState

/-- Backup copy (database.py lines 259-264): `shutil.copy2` of an
existing primary file to the backup path. -/
def stepBackupCopy (fs : FS) : FS :=
  match fs.primary with
  | .absent => fs
  | p => { fs with backup := p }

/-- `tempfile.mkstemp` (lines 267-271): the temp file now exists but is
empty, hence not yet parsable JSON. -/
def stepMkstemp (fs : FS) : FS := { fs with temp := .corrupt }

/-- `json.dump` + `flush` + `fsync` to the temp file (lines 275-278). -/
def stepWriteTemp (data : JVal) (fs : FS) : FS := { fs with temp := .content data }

/-- `os.rename(temp_path, json_path)` (line 287): atomically replaces the
primary file with the temp file. -/
def stepRename (fs : FS) : FS := { fs with primary := fs.temp, temp := .absent }

/-- The state of the three files after the first `k` steps of a
failure-free `save_keyword_mappings data`; `k = 4` is the completed save,
smaller `k` a crash before the remaining steps ran. -/
def saveUpTo (data : JVal) (fs : FS) : Nat → FS
  | 0 => fs
  | 1 => stepBackupCopy fs
  | 2 => stepMkstemp (stepBackupCopy fs)
  | 3 => stepWriteTemp data (stepMkstemp (stepBackupCopy fs))
  | _ + 4 => stepRename (stepWriteTemp data (stepMkstemp (stepBackupCopy fs)))

/-- Which step of `save_keyword_mappings` raises, if any. -/
inductive SaveFail where
  | noFail
  | backupCopy
  | tempWrite
  | fsync
  | rename
deriving DecidableEq

/-- `save_keyword_mappings` (database.py lines 243-295) with an injected
failure: a `backupCopy` failure is caught and logged (lines 261-264) and
the save proceeds; a failure of the temp-file write, the fsync or the
rename hits the `except` clause (lines 289-295), which removes the temp
file and re-raises.  Returns the outcome seen by the caller and the final
file states. -/
def save_keyword_mappings (data : JVal) (fs : FS) (fail : SaveFail) :
    Except PyStr Unit × FS :=
  let fs1 := if fail = SaveFail.backupCopy then fs else stepBackupCopy fs
  let fs2 := stepMkstemp fs1
  match fail with
  | .tempWrite =>
    (.error (pyStr "Failed to save keyword mappings"), { fs2 with temp := .absent })
  | .fsync =>
    (.error (pyStr "Failed to save keyword mappings"), { fs2 with temp := .absent })
  | .rename =>
    let fs3 := stepWriteTemp data fs2
    (.error (pyStr "Failed to save keyword mappings"), { fs3 with temp := .absent })
  | _ => (.ok (), stepRename (stepWriteTemp data fs2))

/-- Follows the spec's words, not the source: "the table is always a
well-formed record with all three fields present".  Used to compare what
`load_keyword_mappings` actually returns against that sentence. -/
def wellFormedTable : JVal → Bool
  | .jdict fields =>
    hasKey fields (pyStr "mappings") && hasKey fields (pyStr "hierarchy") &&
      hasKey fields (pyStr "unmapped_keywords")
  | _ => false

/-- A curated paper as the category loop of `main.py` sees it: an
identifier and the relevance score the curation step may or may not have
attached. -/
structure CuratedPaper where
  entry_id : Nat
  relevance_score : Option Nat
deriving DecidableEq

/-- The category loop of `run_arxiv_search_job` (main.py lines 25-58).
`fetch` is `arxiv_search.search_arxiv` for one category and `curate` is
`curation.curate_papers`, each abstracted as a fallible call; the loop
body has no exception handler, so an error from either call propagates
and ends the run.  Returns the papers inserted across all categories. -/
def run_categories (fetch : Nat → Except Unit (List CuratedPaper))
    (curate : List CuratedPaper → Except Unit (List CuratedPaper))
    (minScore : Nat) : List Nat → Except Unit (List CuratedPaper)
  | [] => .ok []
  | c :: cs =>
    match fetch c with
    | .error e => .error e
    | .ok papers =>
      if papers.isEmpty then run_categories fetch curate minScore cs
      else
        match curate papers with
        | .error e => .error e
        | .ok curated =>
          let filtered := curated.filter (fun p => decide (minScore ≤ p.relevance_score.getD 0))
          match run_categories fetch curate minScore cs with
          | .error e => .error e
          | .ok rest => .ok (filtered ++ rest)

/-! ## Character-level facts about the Python string model -/

theorem lowerChar_lowerChar (c : Nat) : lowerChar (lowerChar c) = lowerChar c := by
  unfold lowerChar; split_ifs <;> omega

theorem lowerChar_upperChar (c : Nat) : lowerChar (upperChar c) = lowerChar c := by
  unfold lowerChar upperChar; split_ifs <;> omega

theorem upperChar_upperChar (c : Nat) : upperChar (upperChar c) = upperChar c := by
  unfold upperChar; split_ifs <;> omega

theorem isSpaceChar_lowerChar (c : Nat) : isSpaceChar (lowerChar c) = isSpaceChar c := by
  unfold lowerChar isSpaceChar
  split_ifs with h
  · rw [Bool.eq_iff_iff]
    simp only [Bool.or_eq_true, beq_iff_eq]
    omega
  · rfl

theorem isSpaceChar_upperChar (c : Nat) : isSpaceChar (upperChar c) = isSpaceChar c := by
  unfold upperChar isSpaceChar
  split_ifs with h
  · rw [Bool.eq_iff_iff]
    simp only [Bool.or_eq_true, beq_iff_eq]
    omega
  · rfl

theorem upperChar_eq_self_of_not_lower (c : Nat) (h : isLowerAlpha c = false) :
    upperChar c = c := by
  unfold isLowerAlpha at h
  rw [Bool.and_eq_false_iff] at h
  unfold upperChar
  split_ifs with h2
  · exfalso
    rcases h with h | h <;> simp only [decide_eq_false_iff_not] at h <;> omega
  · rfl

theorem isAlphaChar_lowerChar (c : Nat) : isAlphaChar (lowerChar c) = isAlphaChar c := by
  unfold lowerChar isAlphaChar isUpperAlpha isLowerAlpha
  split_ifs with h
  · rw [Bool.eq_iff_iff]
    simp only [Bool.or_eq_true, Bool.and_eq_true, decide_eq_true_eq]
    omega
  · rfl

theorem isAlphaChar_upperChar (c : Nat) : isAlphaChar (upperChar c) = isAlphaChar c := by
  unfold upperChar isAlphaChar isUpperAlpha isLowerAlpha
  split_ifs with h
  · rw [Bool.eq_iff_iff]
    simp only [Bool.or_eq_true, Bool.and_eq_true, decide_eq_true_eq]
    omega
  · rfl

theorem isSpaceChar_of_alpha (c : Nat) (h : isAlphaChar c = true) :
    isSpaceChar c = false := by
  unfold isAlphaChar isUpperAlpha isLowerAlpha at h
  simp only [Bool.or_eq_true, Bool.and_eq_true, decide_eq_true_eq] at h
  unfold isSpaceChar
  rw [Bool.eq_false_iff]
  intro hs
  simp only [Bool.or_eq_true, beq_iff_eq] at hs
  omega

/-! ## String-level facts -/

theorem pyLower_pyUpper (s : PyStr) : pyLower (pyUpper s) = pyLower s := by
  induction s with
  | nil => rfl
  | cons c t ih =>
    show lowerChar (upperChar c) :: pyLower (pyUpper t) = lowerChar c :: pyLower t
    rw [ih, lowerChar_upperChar]

theorem pyLower_idem (s : PyStr) : pyLower (pyLower s) = pyLower s := by
  induction s with
  | nil => rfl
  | cons c t ih =>
    show lowerChar (lowerChar c) :: pyLower (pyLower t) = lowerChar c :: pyLower t
    rw [ih, lowerChar_lowerChar]

theorem pyLower_titleAux (b : Bool) (s : PyStr) :
    pyLower (titleAux b s) = pyLower s := by
  induction s generalizing b with
  | nil => rfl
  | cons c t ih =>
    simp only [titleAux]
    by_cases h : isAlphaChar c = true
    · rw [if_pos h]
      show lowerChar (if b then lowerChar c else upperChar c) :: pyLower (titleAux true t)
        = lowerChar c :: pyLower t
      rw [ih true]
      cases b
      · simp [lowerChar_upperChar]
      · simp [lowerChar_lowerChar]
    · rw [if_neg h]
      show lowerChar c :: pyLower (titleAux false t) = lowerChar c :: pyLower t
      rw [ih false]

theorem pyLower_pyTitle (s : PyStr) : pyLower (pyTitle s) = pyLower s :=
  pyLower_titleAux false s

theorem pyUpper_eq_self_of_isUpper (s : PyStr) (h : pyIsUpper s = true) :
    pyUpper s = s := by
  unfold pyIsUpper at h
  rw [Bool.and_eq_true, Bool.not_eq_true', List.any_eq_false] at h
  show s.map upperChar = s
  calc s.map upperChar = s.map id := by
        apply List.map_congr_left
        intro a ha
        exact upperChar_eq_self_of_not_lower a (Bool.eq_false_iff.mpr (h.2 a ha))
    _ = s := List.map_id s

theorem titleAux_titleAux (b : Bool) (s : PyStr) :
    titleAux b (titleAux b s) = titleAux b s := by
  induction s generalizing b with
  | nil => rfl
  | cons c t ih =>
    by_cases h : isAlphaChar c = true
    · simp only [titleAux, if_pos h]
      have hd : isAlphaChar (if b then lowerChar c else upperChar c) = true := by
        cases b
        · simpa [isAlphaChar_upperChar] using h
        · simpa [isAlphaChar_lowerChar] using h
      simp only [titleAux, if_pos hd]
      rw [ih true]
      cases b
      · simp [upperChar_upperChar]
      · simp [lowerChar_lowerChar]
    · simp only [titleAux, if_neg h]
      rw [ih false]

theorem titleAux_spaceMask (b : Bool) (s : PyStr) :
    (titleAux b s).map isSpaceChar = s.map isSpaceChar := by
  induction s generalizing b with
  | nil => rfl
  | cons c t ih =>
    by_cases h : isAlphaChar c = true
    · simp only [titleAux, if_pos h, List.map_cons]
      rw [ih true]
      have hd : isSpaceChar (if b then lowerChar c else upperChar c) = isSpaceChar c := by
        cases b
        · simp [isSpaceChar_upperChar]
        · simp [isSpaceChar_lowerChar]
      rw [hd]
    · simp only [titleAux, if_neg h, List.map_cons]
      rw [ih false]

theorem titleAux_not_contains_32 (b : Bool) (s : PyStr) (h : s.contains 32 = false) :
    (titleAux b s).contains 32 = false := by
  induction s generalizing b with
  | nil => rfl
  | cons c t ih =>
    rw [List.contains_cons, Bool.or_eq_false_iff] at h
    by_cases ha : isAlphaChar c = true
    · simp only [titleAux, if_pos ha, List.contains_cons, Bool.or_eq_false_iff]
      refine ⟨?_, ih true h.2⟩
      have : isSpaceChar (if b then lowerChar c else upperChar c) = isSpaceChar c := by
        cases b
        · simp [isSpaceChar_upperChar]
        · simp [isSpaceChar_lowerChar]
      have halpha : isAlphaChar (if b then lowerChar c else upperChar c) = true := by
        cases b
        · simpa [isAlphaChar_upperChar] using ha
        · simpa [isAlphaChar_lowerChar] using ha
      have := isSpaceChar_of_alpha _ halpha
      rw [beq_eq_false_iff_ne]
      intro hc
      rw [← hc] at this
      simp [isSpaceChar] at this
    · simp only [titleAux, if_neg ha, List.contains_cons, Bool.or_eq_false_iff]
      exact ⟨h.1, ih false h.2⟩

theorem titleAux_length (b : Bool) (s : PyStr) :
    (titleAux b s).length = s.length := by
  induction s generalizing b with
  | nil => rfl
  | cons c t ih =>
    by_cases h : isAlphaChar c = true
    · simp only [titleAux, if_pos h, List.length_cons, ih true]
    · simp only [titleAux, if_neg h, List.length_cons, ih false]

/-! ## Facts about whitespace stripping -/

theorem dropWhile_dropWhile_eq (p : Nat → Bool) (l : List Nat) :
    (l.dropWhile p).dropWhile p = l.dropWhile p := by
  induction l with
  | nil => rfl
  | cons c t ih =>
    by_cases h : p c = true
    · rw [List.dropWhile_cons_of_pos h]; exact ih
    · rw [List.dropWhile_cons_of_neg h, List.dropWhile_cons_of_neg h]

theorem dropWhile_length_le (p : Nat → Bool) (l : List Nat) :
    (l.dropWhile p).length ≤ l.length := by
  induction l with
  | nil => exact Nat.le_refl 0
  | cons c t ih =>
    by_cases h : p c = true
    · rw [List.dropWhile_cons_of_pos h]
      exact Nat.le_succ_of_le ih
    · rw [List.dropWhile_cons_of_neg h]

theorem dropWhile_eq_self_of_length (p : Nat → Bool) (l : List Nat)
    (h : (l.dropWhile p).length = l.length) : l.dropWhile p = l := by
  cases l with
  | nil => rfl
  | cons c t =>
    by_cases hc : p c = true
    · rw [List.dropWhile_cons_of_pos hc] at h
      have := dropWhile_length_le p t
      simp only [List.length_cons] at h
      omega
    · rw [List.dropWhile_cons_of_neg hc]

theorem stripRight_cons_nil (c : Nat) (t : PyStr) (hr : stripRight t = []) :
    stripRight (c :: t) = if isSpaceChar c then [] else [c] := by
  show (match stripRight t with
        | [] => if isSpaceChar c then [] else [c]
        | x :: xs => c :: x :: xs) = _
  rw [hr]

theorem stripRight_cons_cons (c : Nat) (t : PyStr) (x : Nat) (xs : PyStr)
    (hr : stripRight t = x :: xs) : stripRight (c :: t) = c :: x :: xs := by
  show (match stripRight t with
        | [] => if isSpaceChar c then [] else [c]
        | x :: xs => c :: x :: xs) = _
  rw [hr]

theorem stripRight_idem (s : PyStr) : stripRight (stripRight s) = stripRight s := by
  induction s with
  | nil => rfl
  | cons c t ih =>
    cases hr : stripRight t with
    | nil =>
      rw [stripRight_cons_nil c t hr]
      by_cases hc : isSpaceChar c = true
      · rw [if_pos hc]; rfl
      · rw [if_neg hc]
        rw [stripRight_cons_nil c [] rfl, if_neg hc]
    | cons x xs =>
      rw [stripRight_cons_cons c t x xs hr]
      have h2 : stripRight (x :: xs) = x :: xs := by rw [← hr, ih, hr]
      exact stripRight_cons_cons c (x :: xs) x xs h2

theorem stripRight_length_le (s : PyStr) : (stripRight s).length ≤ s.length := by
  induction s with
  | nil => exact Nat.le_refl 0
  | cons c t ih =>
    cases hr : stripRight t with
    | nil =>
      rw [stripRight_cons_nil c t hr]
      by_cases hc : isSpaceChar c = true
      · rw [if_pos hc]; simp
      · rw [if_neg hc]; simp
    | cons x xs =>
      rw [stripRight_cons_cons c t x xs hr]
      rw [hr] at ih
      simp only [List.length_cons] at ih ⊢
      omega

theorem stripRight_eq_self_of_length (s : PyStr)
    (h : (stripRight s).length = s.length) : stripRight s = s := by
  induction s with
  | nil => rfl
  | cons c t ih =>
    cases hr : stripRight t with
    | nil =>
      by_cases hc : isSpaceChar c = true
      · rw [stripRight_cons_nil c t hr, if_pos hc] at h
        simp at h
      · have h1 : stripRight (c :: t) = [c] := by rw [stripRight_cons_nil c t hr, if_neg hc]
        rw [h1] at h
        simp only [List.length_cons, List.length_nil] at h
        have ht : t = [] := List.length_eq_zero.mp (by omega)
        subst ht
        exact h1
    | cons x xs =>
      have h1 : stripRight (c :: t) = c :: x :: xs := stripRight_cons_cons c t x xs hr
      rw [h1] at h ⊢
      simp only [List.length_cons] at h
      have hlen : (stripRight t).length = t.length := by rw [hr]; simp only [List.length_cons]; omega
      have := ih hlen
      rw [hr] at this
      rw [this]

theorem dropWhile_stripRight (l : PyStr) (hl : l.dropWhile isSpaceChar = l) :
    (stripRight l).dropWhile isSpaceChar = stripRight l := by
  cases l with
  | nil => rfl
  | cons c t =>
    have hc : ¬ isSpaceChar c = true := by
      intro hc
      rw [List.dropWhile_cons_of_pos hc] at hl
      have := dropWhile_length_le isSpaceChar t
      rw [hl] at this
      simp only [List.length_cons] at this
      omega
    cases hr : stripRight t with
    | nil =>
      have h1 : stripRight (c :: t) = [c] := by
        rw [stripRight_cons_nil c t hr, if_neg hc]
      rw [h1, List.dropWhile_cons_of_neg hc]
    | cons x xs =>
      rw [stripRight_cons_cons c t x xs hr, List.dropWhile_cons_of_neg hc]

theorem pyStrip_idem (s : PyStr) : pyStrip (pyStrip s) = pyStrip s := by
  show stripRight ((stripRight (s.dropWhile isSpaceChar)).dropWhile isSpaceChar)
      = stripRight (s.dropWhile isSpaceChar)
  rw [dropWhile_stripRight _ (dropWhile_dropWhile_eq isSpaceChar s), stripRight_idem]

theorem stripRight_map (f : Nat → Nat) (hf : ∀ c, isSpaceChar (f c) = isSpaceChar c)
    (s : PyStr) : stripRight (s.map f) = (stripRight s).map f := by
  induction s with
  | nil => rfl
  | cons c t ih =>
    cases hr : stripRight t with
    | nil =>
      rw [hr] at ih
      simp only [List.map_nil] at ih
      rw [List.map_cons, stripRight_cons_nil (f c) (t.map f) ih,
          stripRight_cons_nil c t hr, hf c]
      by_cases hc : isSpaceChar c = true
      · rw [if_pos hc, if_pos hc, List.map_nil]
      · rw [if_neg hc, if_neg hc, List.map_cons, List.map_nil]
    | cons x xs =>
      rw [hr] at ih
      rw [List.map_cons] at ih
      rw [List.map_cons, stripRight_cons_cons (f c) (t.map f) (f x) (xs.map f) ih,
          stripRight_cons_cons c t x xs hr, List.map_cons, List.map_cons]

theorem dropWhile_map_pres (f : Nat → Nat)
    (hf : ∀ c, isSpaceChar (f c) = isSpaceChar c) (s : PyStr) :
    (s.map f).dropWhile isSpaceChar = (s.dropWhile isSpaceChar).map f := by
  rw [List.dropWhile_map]
  have : (isSpaceChar ∘ f) = isSpaceChar := funext hf
  rw [this]

theorem pyStrip_map (f : Nat → Nat) (hf : ∀ c, isSpaceChar (f c) = isSpaceChar c)
    (s : PyStr) : pyStrip (s.map f) = (pyStrip s).map f := by
  show stripRight ((s.map f).dropWhile isSpaceChar) = (stripRight (s.dropWhile isSpaceChar)).map f
  rw [dropWhile_map_pres f hf, stripRight_map f hf]

theorem pyStrip_pyLower (s : PyStr) : pyStrip (pyLower s) = pyLower (pyStrip s) :=
  pyStrip_map lowerChar isSpaceChar_lowerChar s

theorem pyStrip_pyUpper (s : PyStr) : pyStrip (pyUpper s) = pyUpper (pyStrip s) :=
  pyStrip_map upperChar isSpaceChar_upperChar s

/-! ## Whitespace-position transfer between strings with the same space mask -/

theorem dropWhile_eq_self_of_mask (l₁ l₂ : PyStr)
    (hm : l₁.map isSpaceChar = l₂.map isSpaceChar)
    (h : l₁.dropWhile isSpaceChar = l₁) : l₂.dropWhile isSpaceChar = l₂ := by
  cases l₁ with
  | nil =>
    cases l₂ with
    | nil => rfl
    | cons c₂ t₂ => simp at hm
  | cons c₁ t₁ =>
    cases l₂ with
    | nil => rfl
    | cons c₂ t₂ =>
      simp only [List.map_cons, List.cons.injEq] at hm
      have hc₁ : ¬ isSpaceChar c₁ = true := by
        intro hc
        rw [List.dropWhile_cons_of_pos hc] at h
        have := dropWhile_length_le isSpaceChar t₁
        rw [h] at this
        simp only [List.length_cons] at this
        omega
      have hc₂ : ¬ isSpaceChar c₂ = true := fun hc => hc₁ (hm.1.trans hc)
      exact List.dropWhile_cons_of_neg hc₂

theorem stripRight_eq_self_of_mask (l₁ l₂ : PyStr)
    (hm : l₁.map isSpaceChar = l₂.map isSpaceChar)
    (h : stripRight l₁ = l₁) : stripRight l₂ = l₂ := by
  induction l₁ generalizing l₂ with
  | nil =>
    cases l₂ with
    | nil => rfl
    | cons c₂ t₂ => simp at hm
  | cons c₁ t₁ ih =>
    cases l₂ with
    | nil => rfl
    | cons c₂ t₂ =>
      simp only [List.map_cons, List.cons.injEq] at hm
      cases hr : stripRight t₁ with
      | nil =>
        rw [stripRight_cons_nil c₁ t₁ hr] at h
        by_cases hc : isSpaceChar c₁ = true
        · rw [if_pos hc] at h
          exact absurd h (by simp)
        · rw [if_neg hc] at h
          injection h with h1 h2
          have ht₂ : t₂ = [] := by
            rw [← h2] at hm
            exact List.map_eq_nil_iff.mp hm.2.symm
          have hc₂ : ¬ isSpaceChar c₂ = true := fun hcc => hc (hm.1.trans hcc)
          subst ht₂
          rw [stripRight_cons_nil c₂ [] rfl, if_neg hc₂]
      | cons x xs =>
        rw [stripRight_cons_cons c₁ t₁ x xs hr] at h
        injection h with h1 h2
        have hstrip : stripRight t₁ = t₁ := by rw [hr, h2]
        have ih₂ := ih t₂ hm.2 hstrip
        cases t₂ with
        | nil =>
          rw [← h2] at hm
          simp at hm
        | cons y ys =>
          exact stripRight_cons_cons c₂ (y :: ys) y ys ih₂

theorem pyStrip_eq_self_parts (l : PyStr) (h : pyStrip l = l) :
    l.dropWhile isSpaceChar = l ∧ stripRight l = l := by
  have hl : (l.dropWhile isSpaceChar).length = l.length := by
    have h1 : (pyStrip l).length = l.length := by rw [h]
    have h2 := stripRight_length_le (l.dropWhile isSpaceChar)
    have h3 := dropWhile_length_le isSpaceChar l
    unfold pyStrip at h1
    omega
  have hdw : l.dropWhile isSpaceChar = l := dropWhile_eq_self_of_length _ _ hl
  refine ⟨hdw, ?_⟩
  have : pyStrip l = stripRight l := by unfold pyStrip; rw [hdw]
  rw [← this, h]

theorem pyStrip_eq_self_of_parts (l : PyStr) (h1 : l.dropWhile isSpaceChar = l)
    (h2 : stripRight l = l) : pyStrip l = l := by
  unfold pyStrip; rw [h1, h2]

theorem pyStrip_eq_self_of_mask (l₁ l₂ : PyStr)
    (hm : l₁.map isSpaceChar = l₂.map isSpaceChar)
    (h : pyStrip l₁ = l₁) : pyStrip l₂ = l₂ := by
  obtain ⟨h1, h2⟩ := pyStrip_eq_self_parts l₁ h
  exact pyStrip_eq_self_of_parts l₂ (dropWhile_eq_self_of_mask l₁ l₂ hm h1)
    (stripRight_eq_self_of_mask l₁ l₂ hm h2)

/-! ## The special-case table and `capitalize_keyword` -/

theorem lookup_mem {l : List (PyStr × PyStr)} {a : PyStr} {v : PyStr}
    (h : l.lookup a = some v) : (a, v) ∈ l := by
  induction l with
  | nil => simp [List.lookup] at h
  | cons kb t ih =>
    obtain ⟨k, b⟩ := kb
    by_cases hk : (a == k) = true
    · simp only [List.lookup, hk] at h
      injection h with hbv
      have hak : a = k := eq_of_beq hk
      rw [← hak, ← hbv]
      exact List.mem_cons_self _ _
    · rw [Bool.not_eq_true] at hk
      simp only [List.lookup, hk] at h
      exact List.mem_cons_of_mem _ (ih h)

theorem special_cases_check :
    special_cases.all (fun p =>
      (pyLower p.2 == p.1) && (pyStrip p.2 == p.2) && (pyStrip p.1 == p.1)) = true := by
  decide

theorem special_entry_facts {kl v : PyStr} (h : special_cases.lookup kl = some v) :
    pyLower v = kl ∧ pyStrip v = v ∧ pyStrip kl = kl := by
  have hm := lookup_mem h
  have hall := special_cases_check
  rw [List.all_eq_true] at hall
  have h2 := hall _ hm
  simp only [Bool.and_eq_true, beq_iff_eq] at h2
  exact ⟨h2.1.1, h2.1.2, h2.2⟩

theorem capitalize_keyword_eq (keyword : PyStr) :
    capitalize_keyword keyword =
      match special_cases.lookup (pyStrip (pyLower keyword)) with
      | some v => v
      | none =>
        if keyword.length ≤ 4 && pyIsUpper keyword && !(keyword.contains 32) then
          pyUpper keyword
        else pyTitle keyword := rfl

theorem capitalize_keyword_idem (s : PyStr) :
    capitalize_keyword (capitalize_keyword s) = capitalize_keyword s := by
  rw [capitalize_keyword_eq s]
  cases hlk : special_cases.lookup (pyStrip (pyLower s)) with
  | some v =>
    obtain ⟨hlow, hstripv, hstripk⟩ := special_entry_facts hlk
    rw [capitalize_keyword_eq v, hlow, hstripk, hlk]
  | none =>
    by_cases hacr : (decide (s.length ≤ 4) && pyIsUpper s && !(s.contains 32)) = true
    · rw [if_pos hacr]
      have hup : pyUpper s = s := by
        refine pyUpper_eq_self_of_isUpper s ?_
        simp only [Bool.and_eq_true] at hacr
        exact hacr.1.2
      rw [hup, capitalize_keyword_eq s, hlk, if_pos hacr]
      exact hup
    · rw [if_neg hacr]
      rw [capitalize_keyword_eq (pyTitle s), pyLower_pyTitle, hlk]
      by_cases hacr2 : (decide ((pyTitle s).length ≤ 4) && pyIsUpper (pyTitle s)
          && !((pyTitle s).contains 32)) = true
      · rw [if_pos hacr2]
        refine pyUpper_eq_self_of_isUpper _ ?_
        simp only [Bool.and_eq_true] at hacr2
        exact hacr2.1.2
      · rw [if_neg hacr2]
        exact titleAux_titleAux false s

theorem capitalize_strip_lower (s : PyStr) :
    pyStrip (pyLower (capitalize_keyword s)) = pyStrip (pyLower s) := by
  rw [capitalize_keyword_eq s]
  cases hlk : special_cases.lookup (pyStrip (pyLower s)) with
  | some v =>
    obtain ⟨hlow, hstripv, hstripk⟩ := special_entry_facts hlk
    rw [hlow, pyStrip_idem]
  | none =>
    by_cases hacr : (decide (s.length ≤ 4) && pyIsUpper s && !(s.contains 32)) = true
    · rw [if_pos hacr, pyLower_pyUpper]
    · rw [if_neg hacr, pyLower_pyTitle]

theorem pyStrip_capitalize (s : PyStr) (hs : pyStrip s = s) :
    pyStrip (capitalize_keyword s) = capitalize_keyword s := by
  rw [capitalize_keyword_eq s]
  cases hlk : special_cases.lookup (pyStrip (pyLower s)) with
  | some v =>
    exact (special_entry_facts hlk).2.1
  | none =>
    by_cases hacr : (decide (s.length ≤ 4) && pyIsUpper s && !(s.contains 32)) = true
    · rw [if_pos hacr]
      show pyStrip (s.map upperChar) = s.map upperChar
      rw [pyStrip_map upperChar isSpaceChar_upperChar s, hs]
    · rw [if_neg hacr]
      refine pyStrip_eq_self_of_mask s (pyTitle s) ?_ hs
      exact (titleAux_spaceMask false s).symm

/-! ## Idempotence of the canonicalizer -/

theorem normalize_keyword_eq (keyword : PyStr) (mappings : Mappings) :
    normalize_keyword keyword mappings =
      match mappings.find?
          (fun p => (p.2.map pyLower).contains (pyStrip (pyLower keyword))) with
      | some p => p.1
      | none => capitalize_keyword (pyStrip keyword) := rfl

/-- The side condition under which canonicalization is idempotent: every
canonical key of the table, fed back through `normalize_keyword` against
the same table, returns itself. -/
def selfCanonical (mappings : Mappings) : Bool :=
  mappings.all (fun p => normalize_keyword p.1 mappings == p.1)

theorem normalize_keyword_idem (mappings : Mappings) (h : selfCanonical mappings = true)
    (k : PyStr) :
    normalize_keyword (normalize_keyword k mappings) mappings
      = normalize_keyword k mappings := by
  rw [normalize_keyword_eq k mappings]
  cases hf : mappings.find?
      (fun p => (p.2.map pyLower).contains (pyStrip (pyLower k))) with
  | some p =>
    have hp : p ∈ mappings := List.mem_of_find?_eq_some hf
    unfold selfCanonical at h
    rw [List.all_eq_true] at h
    exact beq_iff_eq.mp (h p hp)
  | none =>
    rw [normalize_keyword_eq]
    have hkl : pyStrip (pyLower (capitalize_keyword (pyStrip k)))
        = pyStrip (pyLower k) := by
      rw [capitalize_strip_lower (pyStrip k), pyStrip_pyLower, pyStrip_idem,
        ← pyStrip_pyLower]
    rw [hkl, hf, pyStrip_capitalize (pyStrip k) (pyStrip_idem k)]
    exact capitalize_keyword_idem (pyStrip k)

/-! ## Deduplication facts -/

theorem pySetAux_subset (seen : List PyStr) (l : List PyStr) (x : PyStr)
    (hx : x ∈ pySetAux seen l) : x ∈ l := by
  induction l generalizing seen with
  | nil => simp [pySetAux] at hx
  | cons a t ih =>
    simp only [pySetAux] at hx
    by_cases ha : a ∈ seen
    · rw [if_pos ha] at hx
      exact List.mem_cons_of_mem _ (ih seen hx)
    · rw [if_neg ha] at hx
      rcases List.mem_cons.mp hx with h | h
      · exact List.mem_cons.mpr (Or.inl h)
      · exact List.mem_cons_of_mem _ (ih _ h)

theorem pySetAux_not_mem_seen (seen : List PyStr) (l : List PyStr) (x : PyStr)
    (hx : x ∈ pySetAux seen l) : x ∉ seen := by
  induction l generalizing seen with
  | nil => simp [pySetAux] at hx
  | cons a t ih =>
    simp only [pySetAux] at hx
    by_cases ha : a ∈ seen
    · rw [if_pos ha] at hx
      exact ih seen hx
    · rw [if_neg ha] at hx
      rcases List.mem_cons.mp hx with h | h
      · rw [h]; exact ha
      · have := ih _ h
        intro hxs
        exact this (List.mem_cons_of_mem _ hxs)

theorem pySetAux_nodup (seen : List PyStr) (l : List PyStr) :
    (pySetAux seen l).Nodup := by
  induction l generalizing seen with
  | nil => exact List.nodup_nil
  | cons a t ih =>
    simp only [pySetAux]
    by_cases ha : a ∈ seen
    · rw [if_pos ha]; exact ih seen
    · rw [if_neg ha]
      refine List.nodup_cons.mpr ⟨?_, ih _⟩
      intro hmem
      exact pySetAux_not_mem_seen _ _ _ hmem (List.mem_cons_self a seen)

theorem pySetAux_eq_self (seen : List PyStr) (l : List PyStr) (hn : l.Nodup)
    (hd : ∀ x ∈ l, x ∉ seen) : pySetAux seen l = l := by
  induction l generalizing seen with
  | nil => rfl
  | cons a t ih =>
    obtain ⟨ha, ht⟩ := List.nodup_cons.mp hn
    simp only [pySetAux]
    rw [if_neg (hd a (List.mem_cons_self a t))]
    refine congrArg _ (ih _ ht ?_)
    intro x hx hmem
    rcases List.mem_cons.mp hmem with h | h
    · rw [h] at hx; exact ha hx
    · exact hd x (List.mem_cons_of_mem _ hx) h

theorem pySetList_nodup (l : List PyStr) : (pySetList l).Nodup :=
  pySetAux_nodup [] l

theorem pySetList_subset (l : List PyStr) (x : PyStr) (hx : x ∈ pySetList l) :
    x ∈ l := pySetAux_subset [] l x hx

theorem pySetList_eq_self (l : List PyStr) (hn : l.Nodup) : pySetList l = l :=
  pySetAux_eq_self [] l hn (by simp)

theorem pySetList_idem (l : List PyStr) : pySetList (pySetList l) = pySetList l :=
  pySetList_eq_self _ (pySetList_nodup l)

/-! ## Facts about batch normalization -/

theorem map_normalize_fix (M : Mappings) (h : selfCanonical M = true) (l : List PyStr) :
    (pySetList (l.map (fun kw => normalize_keyword kw M))).map
        (fun kw => normalize_keyword kw M)
      = pySetList (l.map (fun kw => normalize_keyword kw M)) := by
  have hfix : ∀ x ∈ pySetList (l.map (fun kw => normalize_keyword kw M)),
      normalize_keyword x M = x := by
    intro x hx
    have hx' := pySetList_subset _ x hx
    obtain ⟨y, hy, rfl⟩ := List.mem_map.mp hx'
    exact normalize_keyword_idem M h y
  calc (pySetList (l.map (fun kw => normalize_keyword kw M))).map
        (fun kw => normalize_keyword kw M)
      = (pySetList (l.map (fun kw => normalize_keyword kw M))).map id :=
        List.map_congr_left hfix
    _ = _ := List.map_id _

theorem normalize_paper_keywords_cons (M : Mappings) (p : Paper) (rest : List Paper) :
    normalize_paper_keywords M (p :: rest) =
      ((normalizeStep M p).1 :: (normalize_paper_keywords M rest).1,
       (normalizeStep M p).2.1 + (normalize_paper_keywords M rest).2.1,
       (normalizeStep M p).2.2 + (normalize_paper_keywords M rest).2.2) := rfl

theorem normalizeStep_second (M : Mappings) (h : selfCanonical M = true) (p : Paper) :
    (normalizeStep M (normalizeStep M p).1).2.1 = 0 := by
  obtain ⟨pid, kw⟩ := p
  cases kw with
  | missing => rfl
  | bad => rfl
  | kws l =>
    by_cases hN : pySetList (l.map (fun kw => normalize_keyword kw M)) = l
    · have h1 : normalizeStep M ⟨pid, KwField.kws l⟩ = (⟨pid, KwField.kws l⟩, 0, 0) := by
        simp [normalizeStep, hN]
      rw [h1]
      simp [normalizeStep, hN]
    · have h1 : normalizeStep M ⟨pid, KwField.kws l⟩
          = (⟨pid, KwField.kws (pySetList (l.map (fun kw => normalize_keyword kw M)))⟩, 1, 0) := by
        simp [normalizeStep, hN]
      rw [h1]
      have h2 : pySetList ((pySetList (l.map (fun kw => normalize_keyword kw M))).map
            (fun kw => normalize_keyword kw M))
          = pySetList (l.map (fun kw => normalize_keyword kw M)) := by
        rw [map_normalize_fix M h l, pySetList_idem]
      simp [normalizeStep, h2]

theorem second_run_updates_zero (M : Mappings) (h : selfCanonical M = true)
    (c : List Paper) :
    (normalize_paper_keywords M (normalize_paper_keywords M c).1).2.1 = 0 := by
  induction c with
  | nil => rfl
  | cons p rest ih =>
    rw [normalize_paper_keywords_cons M p rest, normalize_paper_keywords_cons]
    rw [normalizeStep_second M h p, ih]

theorem normalizeStep_error (M : Mappings) (p : Paper) :
    (normalizeStep M p).2.2 = if p.kw = KwField.bad then 1 else 0 := by
  obtain ⟨pid, kw⟩ := p
  cases kw with
  | missing => rfl
  | bad => rfl
  | kws l =>
    simp only [normalizeStep]
    split <;> rfl

theorem normalize_paper_keywords_papers (M : Mappings) (c : List Paper) :
    (normalize_paper_keywords M c).1 = c.map (fun p => (normalizeStep M p).1) := by
  induction c with
  | nil => rfl
  | cons p rest ih =>
    rw [normalize_paper_keywords_cons, List.map_cons, ih]

theorem normalize_paper_keywords_errors (M : Mappings) (c : List Paper) :
    (normalize_paper_keywords M c).2.2
      = c.countP (fun p => decide (p.kw = KwField.bad)) := by
  induction c with
  | nil => rfl
  | cons p rest ih =>
    rw [normalize_paper_keywords_cons, List.countP_cons, ih, normalizeStep_error]
    by_cases hb : p.kw = KwField.bad
    · simp [hb]
      omega
    · simp [hb]

/-! ## Claims about the canonicalizer and batch normalization -/

/-- Claim C2, counterexample: with the table mapping canonical key
"foo bar" to the single variant "x", the non-empty, non-whitespace keyword
"x" canonicalizes to "foo bar", but canonicalizing "foo bar" again yields
"Foo Bar" (title case), so canonicalization is not idempotent for every
mapping table. -/
theorem C2_counterexample :
    normalize_keyword (normalize_keyword (pyStr "x") [(pyStr "foo bar", [pyStr "x"])])
        [(pyStr "foo bar", [pyStr "x"])]
      ≠ normalize_keyword (pyStr "x") [(pyStr "foo bar", [pyStr "x"])]
    ∧ pyStrip (pyStr "x") ≠ [] := by
  decide

/-- Claim C2 (amended): canonicalization is idempotent for every mapping
table T in which each canonical key, itself canonicalized against T,
returns itself (`selfCanonical`), and for every keyword string k:
canonicalize(canonicalize(k, T), T) equals canonicalize(k, T). -/
theorem C2_canonicalize_idempotent (T : Mappings) (k : PyStr)
    (h : selfCanonical T = true) :
    normalize_keyword (normalize_keyword k T) T = normalize_keyword k T :=
  normalize_keyword_idem T h k

/-- Witness for C2: the table mapping "Quantum Annealing" to the variants
"QA" and "quantum annealing" is self-canonical, and idempotence holds there
for the keyword "QA". -/
theorem C2_canonicalize_idempotent_witness :
    selfCanonical [(pyStr "Quantum Annealing", [pyStr "QA", pyStr "quantum annealing"])]
        = true
    ∧ normalize_keyword (normalize_keyword (pyStr "QA")
          [(pyStr "Quantum Annealing", [pyStr "QA", pyStr "quantum annealing"])])
          [(pyStr "Quantum Annealing", [pyStr "QA", pyStr "quantum annealing"])]
      = normalize_keyword (pyStr "QA")
          [(pyStr "Quantum Annealing", [pyStr "QA", pyStr "quantum annealing"])] :=
  ⟨by decide, C2_canonicalize_idempotent _ _ (by decide)⟩

/-- Claim C1, counterexample: with the table mapping "foo bar" to variant
"x" and a store holding one paper with keywords ["x"], the first run
rewrites the keywords to ["foo bar"] and the second run still reports
updated_count = 1, because "foo bar" re-canonicalizes to "Foo Bar". -/
theorem C1_counterexample :
    (normalize_paper_keywords [(pyStr "foo bar", [pyStr "x"])]
       (normalize_paper_keywords [(pyStr "foo bar", [pyStr "x"])]
         [⟨0, KwField.kws [pyStr "x"]⟩]).1).2.1 = 1 := by
  decide

/-- Claim C1 (amended): for every document store and every mapping table
whose canonical keys each re-canonicalize to themselves (`selfCanonical`),
running normalize_paper_keywords twice in succession with the same table
returns updated_count = 0 on the second run. -/
theorem C1_batch_second_run_zero (T : Mappings) (store : List Paper)
    (h : selfCanonical T = true) :
    (normalize_paper_keywords T (normalize_paper_keywords T store).1).2.1 = 0 :=
  second_run_updates_zero T h store

/-- Witness for C1: a store of two papers run twice against the
self-canonical "Quantum Annealing" table yields zero updates on the
second run. -/
theorem C1_batch_second_run_zero_witness :
    selfCanonical [(pyStr "Quantum Annealing", [pyStr "QA", pyStr "quantum annealing"])]
        = true
    ∧ (normalize_paper_keywords
         [(pyStr "Quantum Annealing", [pyStr "QA", pyStr "quantum annealing"])]
         (normalize_paper_keywords
           [(pyStr "Quantum Annealing", [pyStr "QA", pyStr "quantum annealing"])]
           [⟨0, KwField.kws [pyStr "QA"]⟩, ⟨1, KwField.kws [pyStr "qaoa"]⟩]).1).2.1 = 0 :=
  ⟨by decide, C1_batch_second_run_zero _ _ (by decide)⟩

/-- Claim C7: the three-tier resolution order.  A mapped variant resolves
through the mapping even when the acronym rule ("QA") or the special-case
table ("pennylane") would also apply; without a mapping the acronym rule,
the special-case table and title case decide; and the first canonical key
in table order wins when two variant sets contain the keyword. -/
theorem C7_three_tier_precedence :
    normalize_keyword (pyStr "QA")
        [(pyStr "Quantum Annealing", [pyStr "QA", pyStr "quantum annealing"])]
      = pyStr "Quantum Annealing"
    ∧ normalize_keyword (pyStr "QA") [] = pyStr "QA"
    ∧ normalize_keyword (pyStr "pennylane") [] = pyStr "PennyLane"
    ∧ normalize_keyword (pyStr "pennylane") [(pyStr "Custom", [pyStr "PennyLane"])]
      = pyStr "Custom"
    ∧ normalize_keyword (pyStr "quantum kernel method") [] = pyStr "Quantum Kernel Method"
    ∧ normalize_keyword (pyStr "x") [(pyStr "First", [pyStr "x"]), (pyStr "Second", [pyStr "x"])]
      = pyStr "First" := by
  exact ⟨rfl, rfl, rfl, rfl, rfl, rfl⟩

/-- Claim C6, counterexample: a paper whose stored keywords hold the same
canonical string twice is rewritten (updated_count = 1) although the
recomputed set equals the stored set: the code compares the deduplicated
list against the stored list, not set against set. -/
theorem C6_counterexample :
    (normalize_paper_keywords [] [⟨0, KwField.kws [pyStr "ML", pyStr "ML"]⟩]).2.1 = 1
    ∧ (pySetList ([pyStr "ML", pyStr "ML"].map (fun kw => normalize_keyword kw []))).toFinset
      = ([pyStr "ML", pyStr "ML"] : List PyStr).toFinset := by
  constructor
  · decide
  · decide

/-- Claim C6 (amended): for every item with a `keywords` field, the
recomputed canonicalized collection is deduplicated (the result has no
duplicates) and an update of exactly that item's keywords is issued, with
updated_count incremented, exactly when the deduplicated recomputed list
differs from the stored list as a list (order- and
multiplicity-sensitively), not as a set. -/
theorem C6_update_iff_dedup_list_differs (T : Mappings) (p : Paper) (l : List PyStr)
    (rest : List Paper) (h : p.kw = KwField.kws l) :
    (pySetList (l.map (fun kw => normalize_keyword kw T))).Nodup
    ∧ (normalize_paper_keywords T (p :: rest)).2.1
      = (if pySetList (l.map (fun kw => normalize_keyword kw T)) = l then 0 else 1)
        + (normalize_paper_keywords T rest).2.1
    ∧ (normalize_paper_keywords T (p :: rest)).1
      = { p with kw := KwField.kws (pySetList (l.map (fun kw => normalize_keyword kw T))) }
          :: (normalize_paper_keywords T rest).1 := by
  obtain ⟨pid, kw⟩ := p
  simp only at h
  subst h
  refine ⟨pySetList_nodup _, ?_, ?_⟩
  · rw [normalize_paper_keywords_cons]
    by_cases hN : pySetList (l.map (fun kw => normalize_keyword kw T)) = l
    · simp [normalizeStep, hN]
    · simp [normalizeStep, hN]
  · rw [normalize_paper_keywords_cons]
    by_cases hN : pySetList (l.map (fun kw => normalize_keyword kw T)) = l
    · simp [normalizeStep, hN]
    · simp [normalizeStep, hN]

/-- Witness for C6: a concrete item whose stored list ["Qaoa"] differs
from the recomputed deduplicated list ["QAOA"], so exactly one update is
issued. -/
theorem C6_update_iff_dedup_list_differs_witness :
    (⟨0, KwField.kws [pyStr "Qaoa"]⟩ : Paper).kw = KwField.kws [pyStr "Qaoa"]
    ∧ ((pySetList ([pyStr "Qaoa"].map (fun kw => normalize_keyword kw []))).Nodup
    ∧ (normalize_paper_keywords [] [⟨0, KwField.kws [pyStr "Qaoa"]⟩]).2.1
      = (if pySetList ([pyStr "Qaoa"].map (fun kw => normalize_keyword kw []))
            = [pyStr "Qaoa"] then 0 else 1)
        + (normalize_paper_keywords [] []).2.1
    ∧ (normalize_paper_keywords [] [⟨0, KwField.kws [pyStr "Qaoa"]⟩]).1
      = { pid := 0,
          kw := KwField.kws (pySetList ([pyStr "Qaoa"].map (fun kw => normalize_keyword kw []))) }
          :: (normalize_paper_keywords [] []).1) :=
  ⟨rfl, C6_update_iff_dedup_list_differs [] _ _ [] rfl⟩

/-- Claim C10: per-item errors never abort a batch run.  If the store
holds exactly one item with an unparsable `keywords` value, the run
finishes with error_count = 1, and every item is still processed
independently: the resulting store is the per-item normalization step
mapped over the whole input store. -/
theorem C10_one_bad_item_isolated (T : Mappings) (store : List Paper)
    (h : store.countP (fun p => decide (p.kw = KwField.bad)) = 1) :
    (normalize_paper_keywords T store).2.2 = 1
    ∧ (normalize_paper_keywords T store).1
      = store.map (fun p => (normalizeStep T p).1) := by
  refine ⟨?_, normalize_paper_keywords_papers T store⟩
  rw [normalize_paper_keywords_errors T store]
  exact h

/-- Witness for C10: a three-item store whose middle item has an
unparsable keywords value; the run reports error_count = 1 and processes
all items. -/
theorem C10_one_bad_item_isolated_witness :
    ([⟨0, KwField.kws [pyStr "qaoa"]⟩, ⟨1, KwField.bad⟩,
        ⟨2, KwField.kws [pyStr "svm"]⟩] : List Paper).countP
        (fun p => decide (p.kw = KwField.bad)) = 1
    ∧ ((normalize_paper_keywords []
         [⟨0, KwField.kws [pyStr "qaoa"]⟩, ⟨1, KwField.bad⟩,
          ⟨2, KwField.kws [pyStr "svm"]⟩]).2.2 = 1
    ∧ (normalize_paper_keywords []
         [⟨0, KwField.kws [pyStr "qaoa"]⟩, ⟨1, KwField.bad⟩,
          ⟨2, KwField.kws [pyStr "svm"]⟩]).1
      = ([⟨0, KwField.kws [pyStr "qaoa"]⟩, ⟨1, KwField.bad⟩,
          ⟨2, KwField.kws [pyStr "svm"]⟩] : List Paper).map
          (fun p => (normalizeStep [] p).1)) :=
  ⟨by decide, C10_one_bad_item_isolated [] _ (by decide)⟩

/-! ## Facts about loading and saving the mapping file -/

theorem setDefault_hasKey (fields : List (PyStr × JVal)) (k : PyStr) (d : JVal)
    (h : hasKey fields k = true) : setDefault fields k d = fields := by
  unfold setDefault
  rw [if_pos h]

theorem load_content_dict (fields : List (PyStr × JVal)) (b : FileState) :
    load_keyword_mappings (FileState.content (JVal.jdict fields)) b
      = .ok (.jdict (setDefault (setDefault (setDefault fields
          (pyStr "mappings") (.jdict []))
          (pyStr "hierarchy") (.jdict []))
          (pyStr "unmapped_keywords") (.jarr []))) := rfl

theorem load_of_wellFormed (T : JVal) (h : wellFormedTable T = true) (b : FileState) :
    load_keyword_mappings (FileState.content T) b = .ok T := by
  cases T with
  | jdict fields =>
    unfold wellFormedTable at h
    rw [Bool.and_eq_true, Bool.and_eq_true] at h
    rw [load_content_dict fields b,
        setDefault_hasKey fields _ _ h.1.1,
        setDefault_hasKey fields _ _ h.1.2,
        setDefault_hasKey fields _ _ h.2]
  | jarr l => exact absurd h (by simp [wellFormedTable])
  | jstr s => exact absurd h (by simp [wellFormedTable])
  | jnum n => exact absurd h (by simp [wellFormedTable])
  | jbool b2 => exact absurd h (by simp [wellFormedTable])
  | jnull => exact absurd h (by simp [wellFormedTable])

theorem stepBackupCopy_primary (fs : FS) : (stepBackupCopy fs).primary = fs.primary := by
  obtain ⟨pr, bk, tp⟩ := fs
  cases pr <;> rfl

/-- Whether `load_keyword_mappings` fails to obtain usable content from
the primary file: it is absent, unreadable, unparsable, or parses to a
non-dictionary. -/
def primaryFailsParse : FileState → Bool
  | .content (JVal.jdict _) => false
  | _ => true

/-- Whether the backup branch of `load_keyword_mappings` fails to obtain
content from the backup file. -/
def backupFailsToLoad : FileState → Bool
  | .content _ => false
  | _ => true

/-- Claim C3, counterexample: a primary file that exists but cannot be
read (an OSError from `open`/`read`) is not caught by the `except`
clause, which handles only `json.JSONDecodeError` and `ValueError`, so
loading raises to the caller. -/
theorem C3_counterexample :
    load_keyword_mappings FileState.unreadable FileState.absent = .error () := rfl

/-- Claim C3 (amended): for every state of the primary file other than an
OS-level read failure (absent, unparsable, or structurally invalid) and
every state of the backup file, load_keyword_mappings returns a table
without throwing; and whenever the primary file yields no usable content
and the backup also fails to load, it returns the default empty table. -/
theorem C3_load_no_raise_unless_unreadable (p b : FileState)
    (h : p ≠ FileState.unreadable) :
    (∃ v, load_keyword_mappings p b = .ok v)
    ∧ (primaryFailsParse p = true → backupFailsToLoad b = true →
        load_keyword_mappings p b = .ok default_data) := by
  cases p with
  | absent => exact ⟨⟨default_data, rfl⟩, fun _ _ => rfl⟩
  | unreadable => exact absurd rfl h
  | corrupt =>
    refine ⟨⟨loadBackup b, rfl⟩, fun _ hb => ?_⟩
    cases b with
    | content v => exact absurd hb (by simp [backupFailsToLoad])
    | absent => rfl
    | unreadable => rfl
    | corrupt => rfl
  | content v =>
    cases v with
    | jdict fields =>
      refine ⟨⟨_, load_content_dict fields b⟩, fun hp _ => ?_⟩
      exact absurd hp (by simp [primaryFailsParse])
    | jarr l =>
      refine ⟨⟨loadBackup b, rfl⟩, fun _ hb => ?_⟩
      cases b with
      | content v2 => exact absurd hb (by simp [backupFailsToLoad])
      | absent => rfl
      | unreadable => rfl
      | corrupt => rfl
    | jstr s =>
      refine ⟨⟨loadBackup b, rfl⟩, fun _ hb => ?_⟩
      cases b with
      | content v2 => exact absurd hb (by simp [backupFailsToLoad])
      | absent => rfl
      | unreadable => rfl
      | corrupt => rfl
    | jnum n =>
      refine ⟨⟨loadBackup b, rfl⟩, fun _ hb => ?_⟩
      cases b with
      | content v2 => exact absurd hb (by simp [backupFailsToLoad])
      | absent => rfl
      | unreadable => rfl
      | corrupt => rfl
    | jbool b2 =>
      refine ⟨⟨loadBackup b, rfl⟩, fun _ hb => ?_⟩
      cases b with
      | content v2 => exact absurd hb (by simp [backupFailsToLoad])
      | absent => rfl
      | unreadable => rfl
      | corrupt => rfl
    | jnull =>
      refine ⟨⟨loadBackup b, rfl⟩, fun _ hb => ?_⟩
      cases b with
      | content v2 => exact absurd hb (by simp [backupFailsToLoad])
      | absent => rfl
      | unreadable => rfl
      | corrupt => rfl

/-- Witness for C3: an unparsable primary file with an unparsable backup
loads without raising and yields the default empty table. -/
theorem C3_load_no_raise_witness :
    FileState.corrupt ≠ FileState.unreadable
    ∧ ((∃ v, load_keyword_mappings FileState.corrupt FileState.corrupt = .ok v)
    ∧ (primaryFailsParse FileState.corrupt = true →
        backupFailsToLoad FileState.corrupt = true →
        load_keyword_mappings FileState.corrupt FileState.corrupt
          = .ok default_data)) :=
  ⟨fun h => FileState.noConfusion h,
   C3_load_no_raise_unless_unreadable FileState.corrupt FileState.corrupt
     (fun h => FileState.noConfusion h)⟩

/-- Claim C5: the failing input.  When the primary file is unparsable and
the backup parses to an empty JSON object, the backup branch returns the
parsed backup content verbatim, without the structural validation the
primary path applies: the returned table lacks all three required fields,
contradicting the function's stated return contract. -/
theorem C5_backup_path_returns_malformed :
    load_keyword_mappings FileState.corrupt (FileState.content (JVal.jdict []))
      = .ok (JVal.jdict [])
    ∧ wellFormedTable (JVal.jdict []) = false := ⟨rfl, rfl⟩

/-! ## Facts about the crash-safe save -/

/-- Claim C8: persistence round-trips for every well-formed table, and
the primary file is crash-safe: loading right after the four save steps
(backup copy, temp creation, temp write + fsync, rename) returns the
saved table, and after any prefix of those steps the primary file holds
either its old content or the complete new content, never a partial
write. -/
theorem C8_roundtrip_and_crash_safety (T : JVal) (fs : FS)
    (h : wellFormedTable T = true) :
    load_keyword_mappings (saveUpTo T fs 4).primary (saveUpTo T fs 4).backup = .ok T
    ∧ ∀ k, k ≤ 4 →
        (saveUpTo T fs k).primary = fs.primary
        ∨ (saveUpTo T fs k).primary = FileState.content T := by
  constructor
  · have hp : (saveUpTo T fs 4).primary = FileState.content T := rfl
    rw [hp]
    exact load_of_wellFormed T h _
  · intro k hk
    interval_cases k
    · exact Or.inl rfl
    · exact Or.inl (stepBackupCopy_primary fs)
    · exact Or.inl (stepBackupCopy_primary fs)
    · exact Or.inl (stepBackupCopy_primary fs)
    · exact Or.inr rfl

/-- Witness for C8: saving the default table over an empty directory and
loading it back returns the default table, and every crash prefix leaves
the primary file old or new. -/
theorem C8_roundtrip_witness :
    wellFormedTable default_data = true
    ∧ (load_keyword_mappings
          (saveUpTo default_data ⟨FileState.absent, FileState.absent, FileState.absent⟩ 4).primary
          (saveUpTo default_data ⟨FileState.absent, FileState.absent, FileState.absent⟩ 4).backup
        = .ok default_data
    ∧ ∀ k, k ≤ 4 →
        (saveUpTo default_data ⟨FileState.absent, FileState.absent, FileState.absent⟩ k).primary
          = (⟨FileState.absent, FileState.absent, FileState.absent⟩ : FS).primary
        ∨ (saveUpTo default_data ⟨FileState.absent, FileState.absent, FileState.absent⟩ k).primary
          = FileState.content default_data) :=
  ⟨rfl, C8_roundtrip_and_crash_safety default_data _ rfl⟩

/-- Claim C9: a failure of the temp-file write, the fsync or the rename
makes save_keyword_mappings remove the temporary file and raise to the
caller, while a failure of the pre-write backup copy is only logged: the
save still completes and rewrites the primary file. -/
theorem C9_save_failures_reported (data : JVal) (fs : FS) (fail : SaveFail) :
    ((fail = SaveFail.tempWrite ∨ fail = SaveFail.fsync ∨ fail = SaveFail.rename) →
      (save_keyword_mappings data fs fail).1
          = .error (pyStr "Failed to save keyword mappings")
      ∧ (save_keyword_mappings data fs fail).2.temp = FileState.absent)
    ∧ (fail = SaveFail.backupCopy →
      (save_keyword_mappings data fs fail).1 = .ok ()
      ∧ (save_keyword_mappings data fs fail).2.primary = FileState.content data
      ∧ (save_keyword_mappings data fs fail).2.backup = fs.backup) := by
  constructor
  · rintro (rfl | rfl | rfl) <;> exact ⟨rfl, rfl⟩
  · rintro rfl
    exact ⟨rfl, rfl, rfl⟩

/-- Witness for C9: a failing temp-file write over an empty directory is
reported as an error with the temp file removed. -/
theorem C9_save_failures_reported_witness :
    (save_keyword_mappings default_data
        ⟨FileState.absent, FileState.absent, FileState.absent⟩ SaveFail.tempWrite).1
      = .error (pyStr "Failed to save keyword mappings")
    ∧ (save_keyword_mappings default_data
        ⟨FileState.absent, FileState.absent, FileState.absent⟩ SaveFail.tempWrite).2.temp
      = FileState.absent :=
  (C9_save_failures_reported default_data
    ⟨FileState.absent, FileState.absent, FileState.absent⟩ SaveFail.tempWrite).1
    (Or.inl rfl)

/-! ## Claims about the ingestion category loop -/

/-- Claim C4, counterexample: with two categories where the fetch for the
first raises, the run terminates with that error; running the second
category alone would have succeeded and inserted a paper, so the failing
category prevented the remaining one from being processed. -/
theorem C4_counterexample :
    run_categories (fun c => if c = 0 then .error () else .ok [⟨7, some 9⟩])
        (fun ps => .ok ps) 5 [0, 1] = .error ()
    ∧ run_categories (fun c => if c = 0 then .error () else .ok [⟨7, some 9⟩])
        (fun ps => .ok ps) 5 [1] = .ok [⟨7, some 9⟩] := by
  constructor <;> rfl

/-- Claim C4 (amended): the category loop of run_arxiv_search_job has no
per-category exception handler: an error raised by the search fetch for a
category, or by the scoring step on that category's non-empty fetch
results, propagates and terminates the run before any remaining category
is processed. -/
theorem C4_category_failure_aborts (fetch : Nat → Except Unit (List CuratedPaper))
    (curate : List CuratedPaper → Except Unit (List CuratedPaper))
    (minScore : Nat) (c : Nat) (cs : List Nat) :
    (fetch c = .error () → run_categories fetch curate minScore (c :: cs) = .error ())
    ∧ (∀ ps, fetch c = .ok ps → ps ≠ [] → curate ps = .error () →
        run_categories fetch curate minScore (c :: cs) = .error ()) := by
  constructor
  · intro h
    unfold run_categories
    rw [h]
  · intro ps hps hne hcur
    cases ps with
    | nil => exact absurd rfl hne
    | cons q qs =>
      unfold run_categories
      rw [hps]
      simp only [List.isEmpty_cons, Bool.false_eq_true, if_false]
      rw [hcur]

/-- Witness for C4: the concrete failing fetch of the counterexample
aborts the two-category run. -/
theorem C4_category_failure_aborts_witness :
    (fun c => if c = 0 then (.error () : Except Unit (List CuratedPaper))
        else .ok [⟨7, some 9⟩]) 0 = .error ()
    ∧ run_categories
        (fun c => if c = 0 then .error () else .ok [⟨7, some 9⟩])
        (fun ps => .ok ps) 5 (0 :: [1]) = .error () :=
  ⟨rfl, (C4_category_failure_aborts _ _ 5 0 [1]).1 rfl⟩
